import Mathlib

/-!
Verification of the crf2html texture-gallery generator.

The development shallowly embeds the pipeline of `src/crf2html.go` (the
canonical version of the program; the older `src/main.go` differs only by a
path-length guard, embedded as `processEntryGuarded`).  External codec
libraries (pcx/tga/jpeg decoding, bilinear resizing, compositing) are
modelled as capability records; the Go standard-library helpers the program
calls (`strings.Split`, `filepath.Ext`, `filepath.Base`, `strings.TrimSuffix`,
`strconv.Atoi`, `html.EscapeString`, `base64.StdEncoding`) are modelled
concretely below.  Machine integers are modelled as `Nat`/`Int`; the
`int(float64(size) * float64(a) / float64(b))` truncations in the source agree
with exact `Nat` floor division whenever `size * max w h < 2^53`, which covers
every realizable image, so the resize arithmetic is embedded as `Nat`
division.
-/

set_option maxHeartbeats 4000000
set_option maxRecDepth 10000

namespace CRF2HTML

/-! ### Go standard-library string helpers -/

/-- Model of `strings.Split(s, string(filepath.Separator))` on a Unix host
(the separator is `/`): split at every separator, keeping empty fields; the
empty string yields `[""]`, as in Go. -/
def splitPathAux : List Char → List Char → List String
  | [], cur => [String.mk cur.reverse]
  | c :: rest, cur =>
    if c = '/' then String.mk cur.reverse :: splitPathAux rest []
    else splitPathAux rest (c :: cur)

def splitPath (s : String) : List String :=
  splitPathAux s.data []

/-- Model of `strings.ToLower`; ASCII case mapping, which covers every path
and caption in scope. -/
def lowerString (s : String) : String :=
  String.mk (s.data.map Char.toLower)

/-- Model of `filepath.Ext`: the suffix of the final path element starting at
its last dot, or the empty string when the final element has no dot. -/
def fileExt (path : String) : String :=
  let rev := path.data.reverse
  let after := rev.takeWhile (fun c => !(c == '.' || c == '/'))
  match rev.drop after.length with
  | '.' :: _ => String.mk ('.' :: after.reverse)
  | _ => ""

/-- Model of `filepath.Base` for the paths this program produces (no trailing
separators): the last `/`-separated component. -/
def baseName (path : String) : String :=
  (splitPath path).getLast? |>.getD path

/-- Model of `strings.TrimSuffix`. -/
def goTrimSuffix (s suffix : String) : String :=
  if List.isSuffixOf suffix.data s.data then
    String.mk (s.data.take (s.data.length - suffix.data.length))
  else s

/-- Model of `strings.TrimPrefix(ext, ".")` as used for the format label. -/
def dropDot (s : String) : String :=
  match s.data with
  | '.' :: rest => String.mk rest
  | _ => s

/-- Model of `html.EscapeString` on one character. -/
def escChar (c : Char) : String :=
  if c = '&' then "&amp;"
  else if c = '\'' then "&#39;"
  else if c = '<' then "&lt;"
  else if c = '>' then "&gt;"
  else if c = '"' then "&#34;"
  else String.mk [c]

/-- Model of `html.EscapeString`. -/
def escapeHTML (s : String) : String :=
  String.join (s.data.map escChar)

/-- Decimal digit value, model of the digit loop in `strconv.Atoi`. -/
def digitVal (c : Char) : Option Nat :=
  if '0' ≤ c ∧ c ≤ '9' then some (c.toNat - 48) else none

def digitsToNatAux : Nat → List Char → Option Nat
  | acc, [] => some acc
  | acc, c :: rest =>
    match digitVal c with
    | some d => digitsToNatAux (acc * 10 + d) rest
    | none => none

/-- A non-empty all-digit string, as accepted by `strconv.Atoi`. -/
def digitsToNat : List Char → Option Nat
  | [] => none
  | l => digitsToNatAux 0 l

/-- Model of `strconv.Atoi`: optional sign followed by at least one decimal
digit; any other input is an error (`none`).  The Go `int` range check is
irrelevant to the claims and is not modelled. -/
def atoi (s : String) : Option Int :=
  match s.data with
  | [] => none
  | '+' :: rest => (digitsToNat rest).map (fun n => (n : Int))
  | '-' :: rest => (digitsToNat rest).map (fun n => -(n : Int))
  | l => (digitsToNat l).map (fun n => (n : Int))

/-! ### Standard base64 (`base64.StdEncoding`) -/

/-- The standard base64 alphabet, sextet to character. -/
def b64Char (n : Nat) : Char :=
  if n < 26 then Char.ofNat (65 + n)
  else if n < 52 then Char.ofNat (97 + (n - 26))
  else if n < 62 then Char.ofNat (48 + (n - 52))
  else if n = 62 then '+'
  else '/'

/-- Inverse of the base64 alphabet. -/
def b64Sextet (ch : Char) : Option Nat :=
  let c := ch.toNat
  if 65 ≤ c ∧ c ≤ 90 then some (c - 65)
  else if 97 ≤ c ∧ c ≤ 122 then some (26 + (c - 97))
  else if 48 ≤ c ∧ c ≤ 57 then some (52 + (c - 48))
  else if ch = '+' then some 62
  else if ch = '/' then some 63
  else none

/-- Model of `base64.StdEncoding.EncodeToString` over byte lists. -/
def b64Encode : List Nat → List Char
  | [] => []
  | [b0] =>
    [b64Char (b0 / 4), b64Char (b0 % 4 * 16), '=', '=']
  | [b0, b1] =>
    [b64Char (b0 / 4), b64Char (b0 % 4 * 16 + b1 / 16), b64Char (b1 % 16 * 4), '=']
  | b0 :: b1 :: b2 :: rest =>
    b64Char (b0 / 4) :: b64Char (b0 % 4 * 16 + b1 / 16) ::
      b64Char (b1 % 16 * 4 + b2 / 64) :: b64Char (b2 % 64) :: b64Encode rest

/-- Model of `base64.StdEncoding` decoding (strict, for round-trip use). -/
def b64Decode : List Char → Option (List Nat)
  | [] => some []
  | c0 :: c1 :: c2 :: c3 :: rest =>
    (b64Sextet c0).bind fun n0 =>
      (b64Sextet c1).bind fun n1 =>
        if c2 = '=' then
          if c3 = '=' ∧ rest = [] then some [n0 * 4 + n1 / 16] else none
        else
          (b64Sextet c2).bind fun n2 =>
            if c3 = '=' then
              if rest = [] then some [n0 * 4 + n1 / 16, n1 % 16 * 16 + n2 / 4] else none
            else
              (b64Sextet c3).bind fun n3 =>
                (b64Decode rest).map fun tail =>
                  (n0 * 4 + n1 / 16) :: (n1 % 16 * 16 + n2 / 4) :: (n2 % 4 * 64 + n3) :: tail
  | _ => none

theorem b64Sextet_b64Char : ∀ n < 64, b64Sextet (b64Char n) = some n := by
  decide

theorem b64Char_ne_pad : ∀ n < 64, b64Char n ≠ '=' := by
  decide

theorem b64Decode_b64Encode :
    ∀ l : List Nat, (∀ b ∈ l, b < 256) → b64Decode (b64Encode l) = some l := by
  intro l
  induction l using b64Encode.induct with
  | case1 =>
    intro _
    rfl
  | case2 b0 =>
    intro h
    have hb0 : b0 < 256 := h b0 (by simp)
    simp only [b64Encode, b64Decode]
    rw [b64Sextet_b64Char (b0 / 4) (by omega),
      b64Sextet_b64Char (b0 % 4 * 16) (by omega)]
    simp only [Option.some_bind', if_pos rfl, and_self, if_pos trivial, Option.some.injEq,
      List.cons.injEq, and_true]
    omega
  | case3 b0 b1 =>
    intro h
    have hb0 : b0 < 256 := h b0 (by simp)
    have hb1 : b1 < 256 := h b1 (by simp)
    simp only [b64Encode, b64Decode]
    rw [b64Sextet_b64Char (b0 / 4) (by omega),
      b64Sextet_b64Char (b0 % 4 * 16 + b1 / 16) (by omega),
      b64Sextet_b64Char (b1 % 16 * 4) (by omega)]
    simp only [Option.some_bind']
    rw [if_neg (b64Char_ne_pad (b1 % 16 * 4) (by omega))]
    simp only [if_true, Option.some.injEq, List.cons.injEq, and_true]
    constructor
    · omega
    · omega
  | case4 b0 b1 b2 rest ih =>
    intro h
    have hb0 : b0 < 256 := h b0 (by simp)
    have hb1 : b1 < 256 := h b1 (by simp)
    have hb2 : b2 < 256 := h b2 (by simp)
    have hrest : ∀ b ∈ rest, b < 256 := fun b hb => h b (by simp [hb])
    simp only [b64Encode, b64Decode]
    rw [b64Sextet_b64Char (b0 / 4) (by omega),
      b64Sextet_b64Char (b0 % 4 * 16 + b1 / 16) (by omega),
      b64Sextet_b64Char (b1 % 16 * 4 + b2 / 64) (by omega),
      b64Sextet_b64Char (b2 % 64) (by omega)]
    simp only [Option.some_bind']
    rw [if_neg (b64Char_ne_pad (b1 % 16 * 4 + b2 / 64) (by omega)),
      if_neg (b64Char_ne_pad (b2 % 64) (by omega))]
    simp only [Option.some_bind', ih hrest, Option.map_some', Option.some.injEq,
      List.cons.injEq]
    refine ⟨by omega, by omega, by omega, trivial⟩

/-! ### Data model (`src/crf2html.go` lines 42-48, 92-95) -/

/-- `color.RGBA`. -/
structure RGBA where
  r : Nat
  g : Nat
  b : Nat
  a : Nat
deriving DecidableEq, Repr

/-- A decoded `image.Image`: bounds (width/height of `Bounds().Max`, with
`Min = (0,0)` as produced by every decoder used), an abstract pixel payload,
and whether its `ColorModel()` is `color.RGBAModel`/`color.NRGBAModel` (the
alpha-capable models tested on line 223). -/
structure Image where
  width : Nat
  height : Nat
  pixels : List Nat
  alphaModel : Bool
deriving DecidableEq, Repr

/-- `ProgramSettings` (lines 42-48). -/
structure ProgramSettings where
  sourcePath : String
  outputPath : String
  pageTitle : String
  thumbnailSize : Int
  backgroundColor : RGBA
deriving DecidableEq, Repr

/-- `Texture` (lines 92-95). -/
structure Texture where
  caption : String
  html : String
deriving DecidableEq, Repr

/-- One enumerated entry: its path (walk- or archive-relative) and raw bytes. -/
structure Entry where
  path : String
  bytes : List Nat
deriving DecidableEq, Repr

/-- Whether the source was a directory (decode dispatched by extension,
lines 188-194) or a CRF/ZIP archive (everything through the generic
`image.Decode`, lines 68-90 and 202). -/
inductive SourceMode where
  | directory
  | archive
deriving DecidableEq, Repr

/-- The external codec libraries, specified only at their interface boundary:
`pcx.Decode`, `tga.Decode`, `image.Decode`, the pixel payloads produced by
`resize.Resize` (bilinear) and `draw.Draw` compositing, `jpeg.Encode`
(taking the quality option), and a standard decoder for the embedded media
type (used only to state the round-trip claim). -/
structure Codec where
  decodePcx : List Nat → Option Image
  decodeTga : List Nat → Option Image
  decodeImage : List Nat → Option Image
  resizePixels : Nat → Nat → Image → List Nat
  compositePixels : RGBA → Image → List Nat
  encodeJpeg : Nat → Image → Option (List Nat)
  decodeJpeg : List Nat → Option Image

/-! ### Thumbnail normalizer (lines 211-228) -/

/-- Lines 213-219: the new bounds computed before `resize.Resize`.  The Go
`int(float64(size) * float64(a) / float64(b))` truncates toward zero, which
for nonnegative operands is exact `Nat` floor division. -/
def newDimensions (size w h : Nat) : Nat × Nat :=
  if w > h then (size, size * h / w) else (size * w / h, size)

/-- Line 221: `resize.Resize(uint(X), uint(Y), imageObj, resize.Bilinear)` —
returns an image with the requested bounds; the pixel payload and the color
model are the library's business. -/
def resizeImage (c : Codec) (w h : Nat) (img : Image) : Image :=
  { width := w, height := h, pixels := c.resizePixels w h img, alphaModel := img.alphaModel }

/-- Lines 224-227: composite onto an opaque `image.NewRGBA` background of the
configured fill color; the result has the same bounds and an RGBA model. -/
def compositeOnBackground (c : Codec) (bg : RGBA) (img : Image) : Image :=
  { width := img.width, height := img.height, pixels := c.compositePixels bg img,
    alphaModel := true }

/-- Lines 211-228: resize to the thumbnail bounding box, then composite onto
the background when the resized image's color model declares alpha. -/
def normalizeImage (c : Codec) (st : ProgramSettings) (img : Image) : Image :=
  let nd := newDimensions st.thumbnailSize.toNat img.width img.height
  let resized := resizeImage c nd.1 nd.2 img
  if resized.alphaModel then compositeOnBackground c st.backgroundColor resized else resized

/-! ### Format classifier and decoder dispatch (lines 163-209) -/

/-- Line 169: the `allowedExtensions` map. -/
def allowedExtension (ext : String) : Bool :=
  ext == ".pcx" || ext == ".gif" || ext == ".png" || ext == ".jpg" || ext == ".tga"

/-- Lines 177-209: extension dispatch for directory sources; archive members
all go through `GetImageFromZip`, which uses the generic `image.Decode`. -/
def decodeEntry (c : Codec) (mode : SourceMode) (ext : String) (bytes : List Nat) :
    Option Image :=
  match mode with
  | .directory =>
    if ext == ".pcx" then c.decodePcx bytes
    else if ext == ".tga" then c.decodeTga bytes
    else c.decodeImage bytes
  | .archive => c.decodeImage bytes

/-! ### Texture encoder (lines 230-254) -/

/-- Lines 239-241: `fmt.Sprintf("data:%s;base64,%s", "image/jpg", encoded)`. -/
def dataUri (jpegBytes : List Nat) : String :=
  "data:" ++ "image/jpg" ++ ";base64," ++ String.mk (b64Encode jpegBytes)

/-- Lines 243-249: the caption, built from the original (not lower-cased)
path and the post-normalization image bounds. -/
def captionOf (origPath : String) (img : Image) : String :=
  let filenameWithoutExtension := goTrimSuffix (baseName origPath) (fileExt origPath)
  let imageDimensions := toString img.width ++ "x" ++ toString img.height
  let imageFormat := dropDot (fileExt origPath)
  let filenameSpan := "<span class='filename'>" ++ lowerString filenameWithoutExtension ++
    "</span>"
  let infoSpan := "<span class='info'>" ++ lowerString imageDimensions ++ " (" ++
    lowerString imageFormat ++ ")</span>"
  filenameSpan ++ " " ++ infoSpan

/-- Lines 251-254: the terminal `Texture` value. -/
def mkTexture (origPath : String) (img : Image) (jpegBytes : List Nat) : Texture :=
  let caption := captionOf origPath img
  { caption := caption,
    html := "<div class='texture'><div class='image'><img src='" ++ dataUri jpegBytes ++
      "'></div><div class='caption'>" ++ caption ++ "</div></div>" }

/-! ### Per-entry processing (the loop body, lines 163-257) -/

/-- Line 164: `strings.Split(strings.ToLower(filePath), "/")`. -/
def pathParts (e : Entry) : List String :=
  splitPath (lowerString e.path)

/-- Line 166 (second projection): `parts[len(parts)-1]`. -/
def entryFilename (e : Entry) : String :=
  (pathParts e).getD ((pathParts e).length - 1) ""

/-- Line 166 (first projection): `parts[len(parts)-2]`. -/
def entryFamily (e : Entry) : String :=
  (pathParts e).getD ((pathParts e).length - 2) ""

/-- The outcome of one iteration of the entry loop. -/
inductive StepOutcome where
  | skipped (diag : String)
  | made (family : String) (t : Texture)
  | fatal
  | crash
deriving DecidableEq, Repr

/-- Lines 168-257: everything after `parts[len(parts)-2]` has been read
safely — classification, decode dispatch, normalization, encoding. -/
def classifyAndBuild (c : Codec) (st : ProgramSettings) (mode : SourceMode) (e : Entry) :
    StepOutcome :=
  if !(allowedExtension (fileExt (entryFilename e))) || entryFilename e == "full.pcx" then
    StepOutcome.skipped ("skipping " ++ e.path)
  else
    match decodeEntry c mode (fileExt (entryFilename e)) e.bytes with
    | none => StepOutcome.fatal
    | some img =>
      match c.encodeJpeg 100 (normalizeImage c st img) with
      | none => StepOutcome.fatal
      | some jpegBytes =>
        StepOutcome.made (entryFamily e) (mkTexture e.path (normalizeImage c st img) jpegBytes)

/-- The loop body of `src/crf2html.go` (lines 163-257).  There is no guard on
the number of path components: for a single-component path the index
expression `parts[len(parts)-2]` on line 166 is out of range and the program
panics (`crash`). -/
def processEntry (c : Codec) (st : ProgramSettings) (mode : SourceMode) (e : Entry) :
    StepOutcome :=
  if (pathParts e).length < 2 then StepOutcome.crash
  else classifyAndBuild c st mode e

/-- The loop body of the older `src/main.go` (lines 157-251), which guards
`len(parts) < 2` and skips such entries with the same diagnostic. -/
def processEntryGuarded (c : Codec) (st : ProgramSettings) (mode : SourceMode) (e : Entry) :
    StepOutcome :=
  if (pathParts e).length < 2 then StepOutcome.skipped ("skipping " ++ e.path)
  else classifyAndBuild c st mode e

/-! ### Go string comparison

Go compares strings byte-wise lexicographically; on valid UTF-8 this equals
code-point order, embedded here as a lexicographic comparison of the char
lists. -/

/-- Byte-wise `<` of Go strings, on char lists. -/
def lexLt : List Char → List Char → Bool
  | _, [] => false
  | [], _ :: _ => true
  | a :: as, b :: bs =>
    if a.toNat < b.toNat then true
    else if b.toNat < a.toNat then false
    else lexLt as bs

/-- Go `s1 < s2`. -/
def strLt (a b : String) : Prop :=
  lexLt a.data b.data = true

/-- Go `!(s2 < s1)`, the order produced by `sort.Strings`/`sort.Slice`. -/
def strLe (a b : String) : Prop :=
  lexLt b.data a.data = false

instance : DecidableRel strLt := fun a b =>
  inferInstanceAs (Decidable (lexLt a.data b.data = true))

instance : DecidableRel strLe := fun a b =>
  inferInstanceAs (Decidable (lexLt b.data a.data = false))

theorem lexLt_asymm : ∀ l₁ l₂ : List Char, lexLt l₁ l₂ = true → lexLt l₂ l₁ = false := by
  intro l₁
  induction l₁ with
  | nil =>
    intro l₂ h
    cases l₂ with
    | nil => simp [lexLt] at h
    | cons b bs => rfl
  | cons a as ih =>
    intro l₂ h
    cases l₂ with
    | nil => simp [lexLt] at h
    | cons b bs =>
      simp only [lexLt] at h ⊢
      by_cases hab : a.toNat < b.toNat
      · rw [if_neg (show ¬ b.toNat < a.toNat by omega), if_pos hab]
      · by_cases hba : b.toNat < a.toNat
        · rw [if_neg hab, if_pos hba] at h
          exact absurd h (by simp)
        · rw [if_neg hab, if_neg hba] at h
          rw [if_neg hba, if_neg hab]
          exact ih bs h

theorem lexLt_trans :
    ∀ l₁ l₂ l₃ : List Char, lexLt l₁ l₂ = true → lexLt l₂ l₃ = true → lexLt l₁ l₃ = true := by
  intro l₁
  induction l₁ with
  | nil =>
    intro l₂ l₃ h₁ h₂
    cases l₂ with
    | nil => exact absurd h₁ (by simp [lexLt])
    | cons b bs =>
      cases l₃ with
      | nil => exact absurd h₂ (by simp [lexLt])
      | cons c cs => rfl
  | cons a as ih =>
    intro l₂ l₃ h₁ h₂
    cases l₂ with
    | nil => exact absurd h₁ (by simp [lexLt])
    | cons b bs =>
      cases l₃ with
      | nil => exact absurd h₂ (by simp [lexLt])
      | cons c cs =>
        simp only [lexLt] at h₁ h₂ ⊢
        by_cases hab : a.toNat < b.toNat
        · by_cases hbc : b.toNat < c.toNat
          · rw [if_pos (show a.toNat < c.toNat by omega)]
          · by_cases hcb : c.toNat < b.toNat
            · rw [if_neg hbc, if_pos hcb] at h₂
              exact absurd h₂ (by simp)
            · rw [if_pos (show a.toNat < c.toNat by omega)]
        · by_cases hba : b.toNat < a.toNat
          · rw [if_neg hab, if_pos hba] at h₁
            exact absurd h₁ (by simp)
          · rw [if_neg hab, if_neg hba] at h₁
            by_cases hbc : b.toNat < c.toNat
            · rw [if_pos (show a.toNat < c.toNat by omega)]
            · by_cases hcb : c.toNat < b.toNat
              · rw [if_neg hbc, if_pos hcb] at h₂
                exact absurd h₂ (by simp)
              · rw [if_neg hbc, if_neg hcb] at h₂
                rw [if_neg (show ¬ a.toNat < c.toNat by omega),
                  if_neg (show ¬ c.toNat < a.toNat by omega)]
                exact ih bs cs h₁ h₂

theorem lexLt_eq_of_not :
    ∀ l₁ l₂ : List Char, lexLt l₁ l₂ = false → lexLt l₂ l₁ = false → l₁ = l₂ := by
  intro l₁
  induction l₁ with
  | nil =>
    intro l₂ h₁ _
    cases l₂ with
    | nil => rfl
    | cons b bs => exact absurd h₁ (by simp [lexLt])
  | cons a as ih =>
    intro l₂ h₁ h₂
    cases l₂ with
    | nil => exact absurd h₂ (by simp [lexLt])
    | cons b bs =>
      simp only [lexLt] at h₁ h₂
      by_cases hab : a.toNat < b.toNat
      · rw [if_pos hab] at h₁
        exact absurd h₁ (by simp)
      · by_cases hba : b.toNat < a.toNat
        · rw [if_pos hba] at h₂
          exact absurd h₂ (by simp)
        · rw [if_neg hab, if_neg hba] at h₁
          have hnat : a.toNat = b.toNat := by omega
          have hc : a = b :=
            Char.eq_of_val_eq (UInt32.eq_of_val_eq (Fin.ext hnat))
          rw [if_neg hba, if_neg hab] at h₂
          rw [hc, ih bs h₁ h₂]

instance : IsTotal String strLe := by
  constructor
  intro a b
  unfold strLe
  by_cases h : lexLt b.data a.data = true
  · right
    exact lexLt_asymm _ _ h
  · left
    simpa using h

instance : IsTrans String strLe := by
  constructor
  intro a b c hab hbc
  unfold strLe at *
  by_contra hca
  have hca' : lexLt c.data a.data = true := by
    simpa using hca
  by_cases hbc' : lexLt b.data c.data = true
  · have : lexLt b.data a.data = true := lexLt_trans _ _ _ hbc' hca'
    rw [this] at hab
    exact absurd hab (by simp)
  · have hb : b.data = c.data := lexLt_eq_of_not _ _ (by simpa using hbc') hbc
    rw [← hb] at hca'
    rw [hca'] at hab
    exact absurd hab (by simp)

instance : IsAntisymm String strLe := by
  constructor
  intro a b hab hba
  unfold strLe at hab hba
  have : a.data = b.data := lexLt_eq_of_not _ _ hba hab
  cases a
  cases b
  exact congrArg String.mk this

/-! ### Family aggregator and page assembler (lines 259-314)

The Go program accumulates `families[family] = append(families[family], t)`;
per key this preserves encounter order, so the slice for a key equals the
in-order filter of the stream of `(family, texture)` pairs.  Key iteration
order of the map is unspecified, but the keys are immediately sorted by
`sort.Strings`, so collecting first occurrences (`dedup`) before sorting is
an exact model.  `sort.Slice` with the caption comparator uses insertion
sort for the slice lengths arising here, which is the stable sort by
caption; it is embedded as `List.insertionSort` over caption order (also
stable). -/

/-- The textures accumulated for one family key, in encounter order. -/
def texturesOf (acc : List (String × Texture)) (family : String) : List Texture :=
  (acc.filter (fun p => p.1 == family)).map Prod.snd

/-- The comparator of lines 271-273, as a preorder on textures. -/
def captionLe (t₁ t₂ : Texture) : Prop :=
  strLe t₁.caption t₂.caption

instance : DecidableRel captionLe := fun a b =>
  inferInstanceAs (Decidable (strLe a.caption b.caption))

instance : IsTotal Texture captionLe :=
  ⟨fun a b => total_of strLe a.caption b.caption⟩

instance : IsTrans Texture captionLe :=
  ⟨fun _ _ _ hab hbc => Trans.trans (r := strLe) hab hbc⟩

/-- Lines 271-273: sort the family's textures by caption. -/
def sortTextures (ts : List Texture) : List Texture :=
  ts.insertionSort captionLe

/-- Lines 259-264: the distinct family keys, sorted by `sort.Strings`.
(`dedup` keeps one occurrence per distinct key; which occurrence is kept is
irrelevant after sorting.) -/
def familyKeys (acc : List (String × Texture)) : List String :=
  ((acc.map Prod.fst).dedup).insertionSort strLe

/-- Line 281: one family section. -/
def sectionFor (acc : List (String × Texture)) (family : String) : String :=
  "<section><h2>" ++ escapeHTML family ++ "</h2><div class='family'>" ++
    String.join ((sortTextures (texturesOf acc family)).map Texture.html) ++ "</div></section>"

/-- Lines 266-282 with the join on line 313: all sections, concatenated in
sorted family order. -/
def renderSections (acc : List (String × Texture)) : String :=
  String.join ((familyKeys acc).map (sectionFor acc))

/-- The fixed parts of the page template (lines 284-314), split at the
`%s`/`%d` verbs.  Literal braces are written `\x7b`/`\x7d`. -/
def pageP1 : String :=
  "<!DOCTYPE html>\n\t\t<html>\n\t\t<head>\n\t\t<title>"

def pageP2 : String :=
  "</title>\n\t\t<style>\n\t\tbody,h1,h2\x7bcolor:#fff;font-family:Arial,sans-serif;line-height:1\x7d\n\t\tbody\x7bbackground:#333\x7d\n\t\th1\x7bfont-size:18px;text-transform:uppercase\x7d\n\t\th2\x7bborder-bottom:1px solid #899;font-size:16px;padding:0 0 8px;text-transform:capitalize\x7d\n\t\tsection\x7bpadding:24px 0\x7d\n\t\t.family\x7bdisplay:flex;flex-wrap:wrap;gap:16px\x7d\n\t\t.texture,.image\x7bwidth:"

def pageP3 : String :=
  "px\x7d\n\t\t.texture\x7bflex:0 0 auto\x7d\n\t\t.image\x7bheight:"

def pageP4 : String :=
  "px\x7d\n\t\timg\x7bwidth:100%;height:100%;object-fit:contain\x7d\n\t\t.caption\x7bcolor:#899;font-size:12px;text-align:center;padding:16px 0;display:flex;flex-direction:column;gap:8px\x7d\n\t\t.filename\x7bfont-size:14px;font-weight:bold\x7d\n\t\t</style>\t\t\n\t\t</head>\n\t\t<body>\n\t\t<h1>"

def pageP5 : String :=
  "</h1>\n\t\t"

def pageP6 : String :=
  "\n\t\t</body>\n\t\t</html>"

/-- Lines 284-314: the full page string. -/
def renderPage (st : ProgramSettings) (acc : List (String × Texture)) : String :=
  pageP1 ++ escapeHTML st.pageTitle ++ pageP2 ++ toString st.thumbnailSize ++ pageP3 ++
    toString st.thumbnailSize ++ pageP4 ++ escapeHTML st.pageTitle ++ pageP5 ++
    renderSections acc ++ pageP6

/-! ### The whole run -/

/-- Outcome of the entry loop plus page assembly: either the page is written
(together with the `skipping` diagnostics emitted along the way), or the run
stopped at a fatal decode/encode error (`fmt.Println(err); return` — no
output), or it panicked on a short path. -/
inductive RunOutcome where
  | page (diags : List String) (html : String)
  | fatalStop (diags : List String)
  | crashed (diags : List String)
deriving DecidableEq, Repr

def pageOf : RunOutcome → Option String
  | .page _ h => some h
  | _ => none

def diagsOf : RunOutcome → List String
  | .page d _ => d
  | .fatalStop d => d
  | .crashed d => d

/-- Lines 163-314: process the entries in order, accumulating diagnostics and
`(family, texture)` pairs, then assemble the page. -/
def processList (c : Codec) (st : ProgramSettings) (mode : SourceMode) :
    List Entry → List String → List (String × Texture) → RunOutcome
  | [], diags, acc => .page diags (renderPage st acc)
  | e :: rest, diags, acc =>
    match processEntry c st mode e with
    | .skipped d => processList c st mode rest (diags ++ [d]) acc
    | .made f t => processList c st mode rest diags (acc ++ [(f, t)])
    | .fatal => .fatalStop diags
    | .crash => .crashed diags

def runEntries (c : Codec) (st : ProgramSettings) (mode : SourceMode)
    (entries : List Entry) : RunOutcome :=
  processList c st mode entries [] []

/-! ### CLI surface (lines 97-157) -/

/-- Lines 113-117: `for i := 3; i < len(args); i += 2` scanning for
`-title`. -/
def parseTitleLoop (args : List String) (i : Nat) (title : String) : String :=
  if h : i < args.length then
    parseTitleLoop args (i + 2)
      (if i + 1 < args.length ∧ args.getD i "" = "-title" then args.getD (i + 1) "" else title)
  else title
termination_by args.length - i
decreasing_by omega

/-- Lines 119-129: the `-size` scan; a value `strconv.Atoi` rejects aborts
the program with the diagnostic of line 124. -/
def parseSizeLoop (args : List String) (i : Nat) (size : Int) : Except String Int :=
  if h : i < args.length then
    if i + 1 < args.length ∧ args.getD i "" = "-size" then
      match atoi (args.getD (i + 1) "") with
      | some v => parseSizeLoop args (i + 2) v
      | none => .error ("Invalid value for -size: " ++ args.getD (i + 1) "")
    else parseSizeLoop args (i + 2) size
  else .ok size
termination_by args.length - i
decreasing_by all_goals omega

/-- Lines 105-111: the settings before flag parsing. -/
def defaultSettings (src out : String) : ProgramSettings :=
  { sourcePath := src, outputPath := out, pageTitle := "Textures", thumbnailSize := 128,
    backgroundColor := { r := 255, g := 255, b := 255, a := 255 } }

/-- What `os.Stat`/`zip.OpenReader` found at the source path (lines 135-157),
as an external collaborator: a directory tree or archive with its entries, or
neither. -/
inductive SourceDesc where
  | available (mode : SourceMode) (entries : List Entry)
  | unavailable
deriving Repr

/-- Outcome of `main`. -/
inductive MainOutcome where
  | usage
  | invalidSize (msg : String)
  | sourceFailed
  | ran (result : RunOutcome)
deriving DecidableEq, Repr

/-- `main` (lines 97-321): argument check, flag parsing (title then size),
source enumeration, entry loop, page write.  `args` includes the program
name at index 0. -/
def mainRun (c : Codec) (args : List String) (src : SourceDesc) : MainOutcome :=
  if args.length < 3 then .usage
  else
    let s0 := defaultSettings (args.getD 1 "") (args.getD 2 "")
    let s1 := { s0 with pageTitle := parseTitleLoop args 3 s0.pageTitle }
    match parseSizeLoop args 3 s1.thumbnailSize with
    | .error msg => .invalidSize msg
    | .ok size =>
      let st := { s1 with thumbnailSize := size }
      match src with
      | .unavailable => .sourceFailed
      | .available mode entries => .ran (runEntries c st mode entries)

/-- The content written to the output file, when any. -/
def outputOf : MainOutcome → Option String
  | .ran (.page _ html) => some html
  | _ => none

/-! ### Concrete instances used for witnesses and counterexamples -/

/-- A concrete codec instance: decodes any byte list as a 2x2 image whose
payload is the bytes, resizes/composites by keeping the payload, and encodes
to the payload itself. -/
def idCodec : Codec :=
  { decodePcx := fun bs => some { width := 2, height := 2, pixels := bs, alphaModel := false },
    decodeTga := fun bs => some { width := 2, height := 2, pixels := bs, alphaModel := false },
    decodeImage := fun bs => some { width := 2, height := 2, pixels := bs, alphaModel := false },
    resizePixels := fun _ _ img => img.pixels,
    compositePixels := fun _ img => img.pixels,
    encodeJpeg := fun _ img => some img.pixels,
    decodeJpeg := fun bs => some { width := 0, height := 0, pixels := bs, alphaModel := false } }

/-- A codec whose generic decoder always fails, for exercising the fatal
decode path. -/
def failCodec : Codec :=
  { idCodec with decodeImage := fun _ => none }

def testSettings : ProgramSettings :=
  defaultSettings "source" "output"

def entryA : Entry := { path := "a/wood/oak.png", bytes := [0] }

def entryB : Entry := { path := "b/wood/oak.png", bytes := [1] }

def entryC : Entry := { path := "a/wood/pine.png", bytes := [2] }

/-! ### Shared helper lemmas about the resize arithmetic -/

theorem newDimensions_bounds (size w h : Nat) (hw : 0 < w) (hh : 0 < h) :
    (newDimensions size w h).1 ≤ size ∧ (newDimensions size w h).2 ≤ size ∧
    max (newDimensions size w h).1 (newDimensions size w h).2 = size := by
  unfold newDimensions
  by_cases hgt : w > h
  · have hle : size * h / w ≤ size := by
      have h1 : size * h ≤ size * w := Nat.mul_le_mul_left _ (le_of_lt hgt)
      have h2 : size * h / w ≤ size * w / w := Nat.div_le_div_right h1
      rwa [Nat.mul_div_cancel _ hw] at h2
    simp only [if_pos hgt]
    exact ⟨le_refl _, hle, Nat.max_eq_left hle⟩
  · have hwh : w ≤ h := le_of_not_lt hgt
    have hle : size * w / h ≤ size := by
      have h1 : size * w ≤ size * h := Nat.mul_le_mul_left _ hwh
      have h2 : size * w / h ≤ size * h / h := Nat.div_le_div_right h1
      rwa [Nat.mul_div_cancel _ hh] at h2
    simp only [if_neg hgt]
    exact ⟨hle, le_refl _, Nat.max_eq_right hle⟩

/-! ### Claim C1 -/

/-- The dimension rule exactly as the claim words it, with `round` read as
half-up rounding: `round (a / b) = (2 * a + b) / (2 * b)`. -/
def specRoundDims (size w h : Nat) : Nat × Nat :=
  if w > h then (size, (2 * (size * h) + w) / (2 * w))
  else ((2 * (size * w) + h) / (2 * h), size)

/-- The dimension rule with floor in place of round and no lower bound, the
amended form of the claim. -/
def specFloorDims (size w h : Nat) : Nat × Nat :=
  if w > h then (size, size * h / w) else (size * w / h, size)

/-- Claim C1, counterexample: for a 3x1 image at target size 128 the code
computes height `floor(128/3) = 42`, not `round(128/3) = 43`; and for a
300x1 image it computes height 0, violating the claimed lower bound of 1. -/
theorem c1_counterexample :
    newDimensions 128 3 1 ≠ specRoundDims 128 3 1 ∧
    (newDimensions 128 300 1).2 = 0 := by
  decide

/-- Claim C1 (amended): for every decoded image with positive width and
height and positive thumbnail size N, the computed dimensions follow the
floor rule (new shorter side = floor(N * short / long), which can be 0 — no
lower bound of 1 is enforced), and the longer side always equals N
exactly. -/
theorem c1_thumbnail_dimensions (size w h : Nat) (hw : 0 < w) (hh : 0 < h)
    (hs : 0 < size) :
    newDimensions size w h = specFloorDims size w h ∧
    max (newDimensions size w h).1 (newDimensions size w h).2 = size ∧
    (newDimensions size w h).1 ≤ size ∧ (newDimensions size w h).2 ≤ size := by
  obtain ⟨h1, h2, h3⟩ := newDimensions_bounds size w h hw hh
  exact ⟨rfl, h3, h1, h2⟩

theorem c1_thumbnail_dimensions_witness :
    newDimensions 128 3 2 = specFloorDims 128 3 2 ∧
    max (newDimensions 128 3 2).1 (newDimensions 128 3 2).2 = 128 ∧
    (newDimensions 128 3 2).1 ≤ 128 ∧ (newDimensions 128 3 2).2 ≤ 128 :=
  c1_thumbnail_dimensions 128 3 2 (by decide) (by decide) (by decide)

/-! ### Run-loop helper lemmas -/

/-- An entry the loop gets past without aborting: skipped or made. -/
def stepIsOk (c : Codec) (st : ProgramSettings) (mode : SourceMode) (e : Entry) : Bool :=
  match processEntry c st mode e with
  | .skipped _ => true
  | .made _ _ => true
  | _ => false

/-- The `skipping` diagnostics a list of entries emits, in order. -/
def skipDiags (c : Codec) (st : ProgramSettings) (mode : SourceMode)
    (l : List Entry) : List String :=
  l.filterMap fun e =>
    match processEntry c st mode e with
    | .skipped d => some d
    | _ => none

/-- The `(family, texture)` pairs a list of entries produces, in order. -/
def resultsOf (c : Codec) (st : ProgramSettings) (mode : SourceMode)
    (l : List Entry) : List (String × Texture) :=
  l.filterMap fun e =>
    match processEntry c st mode e with
    | .made f t => some (f, t)
    | _ => none

theorem processList_ok (c : Codec) (st : ProgramSettings) (mode : SourceMode) :
    ∀ (l : List Entry) (diags : List String) (acc : List (String × Texture)),
      (∀ e ∈ l, stepIsOk c st mode e = true) →
      processList c st mode l diags acc =
        .page (diags ++ skipDiags c st mode l)
          (renderPage st (acc ++ resultsOf c st mode l)) := by
  intro l
  induction l with
  | nil =>
    intro diags acc _
    simp [processList, skipDiags, resultsOf]
  | cons e rest ih =>
    intro diags acc hall
    have he : stepIsOk c st mode e = true := hall e (by simp)
    have hrest : ∀ x ∈ rest, stepIsOk c st mode x = true := fun x hx => hall x (by simp [hx])
    unfold stepIsOk at he
    cases hpe : processEntry c st mode e with
    | skipped d =>
      simp only [processList, hpe, ih _ _ hrest, skipDiags, resultsOf, List.filterMap_cons,
        hpe, List.append_assoc, List.singleton_append]
    | made f t =>
      simp only [processList, hpe, ih _ _ hrest, skipDiags, resultsOf, List.filterMap_cons,
        hpe, List.append_assoc, List.singleton_append]
    | fatal => rw [hpe] at he; simp at he
    | crash => rw [hpe] at he; simp at he

theorem processList_page_all_ok (c : Codec) (st : ProgramSettings) (mode : SourceMode) :
    ∀ (l : List Entry) (diags : List String) (acc : List (String × Texture))
      (d : List String) (h : String),
      processList c st mode l diags acc = .page d h →
      ∀ e ∈ l, stepIsOk c st mode e = true := by
  intro l
  induction l with
  | nil => intro _ _ _ _ _ e he; simp at he
  | cons e rest ih =>
    intro diags acc d h hrun x hx
    rcases List.mem_cons.mp hx with rfl | hx'
    · unfold stepIsOk
      cases hpe : processEntry c st mode x with
      | skipped _ => rfl
      | made _ _ => rfl
      | fatal => rw [processList, hpe] at hrun; exact absurd hrun (by simp)
      | crash => rw [processList, hpe] at hrun; exact absurd hrun (by simp)
    · cases hpe : processEntry c st mode e with
      | skipped dd => rw [processList, hpe] at hrun; exact ih _ _ _ _ hrun x hx'
      | made f t => rw [processList, hpe] at hrun; exact ih _ _ _ _ hrun x hx'
      | fatal => rw [processList, hpe] at hrun; exact absurd hrun (by simp)
      | crash => rw [processList, hpe] at hrun; exact absurd hrun (by simp)

theorem processList_append_ok (c : Codec) (st : ProgramSettings) (mode : SourceMode) :
    ∀ (l₁ : List Entry), (∀ e ∈ l₁, stepIsOk c st mode e = true) →
      ∀ (l' : List Entry) (diags : List String) (acc : List (String × Texture)),
        processList c st mode (l₁ ++ l') diags acc =
          processList c st mode l' (diags ++ skipDiags c st mode l₁)
            (acc ++ resultsOf c st mode l₁) := by
  intro l₁
  induction l₁ with
  | nil =>
    intro _ l' diags acc
    simp [skipDiags, resultsOf]
  | cons e rest ih =>
    intro hall l' diags acc
    have he : stepIsOk c st mode e = true := hall e (by simp)
    have hrest : ∀ x ∈ rest, stepIsOk c st mode x = true := fun x hx => hall x (by simp [hx])
    unfold stepIsOk at he
    cases hpe : processEntry c st mode e with
    | skipped d =>
      simp only [List.cons_append, processList, hpe, List.append_eq]
      rw [ih hrest]
      simp only [skipDiags, resultsOf, List.filterMap_cons, hpe, List.append_assoc,
        List.singleton_append]
    | made f t =>
      simp only [List.cons_append, processList, hpe, List.append_eq]
      rw [ih hrest]
      simp only [skipDiags, resultsOf, List.filterMap_cons, hpe, List.append_assoc,
        List.singleton_append]
    | fatal => rw [hpe] at he; simp at he
    | crash => rw [hpe] at he; simp at he

theorem pageOf_processList_diags (c : Codec) (st : ProgramSettings) (mode : SourceMode) :
    ∀ (l : List Entry) (D D' : List String) (acc : List (String × Texture)),
      pageOf (processList c st mode l D acc) = pageOf (processList c st mode l D' acc) := by
  intro l
  induction l with
  | nil => intro D D' acc; rfl
  | cons e rest ih =>
    intro D D' acc
    cases hpe : processEntry c st mode e with
    | skipped d => simp only [processList, hpe]; exact ih _ _ _
    | made f t => simp only [processList, hpe]; exact ih _ _ _
    | fatal => simp [processList, hpe, pageOf]
    | crash => simp [processList, hpe, pageOf]

theorem diagsOf_processList (c : Codec) (st : ProgramSettings) (mode : SourceMode) :
    ∀ (l : List Entry) (D : List String) (acc : List (String × Texture)),
      diagsOf (processList c st mode l D acc) = D ++ diagsOf (processList c st mode l [] acc) := by
  intro l
  induction l with
  | nil => intro D acc; simp [processList, diagsOf]
  | cons e rest ih =>
    intro D acc
    cases hpe : processEntry c st mode e with
    | skipped d =>
      simp only [processList, hpe, List.nil_append]
      rw [ih (D ++ [d]), ih [d]]
      simp
    | made f t => simp only [processList, hpe]; exact ih _ _
    | fatal => simp [processList, hpe, diagsOf]
    | crash => simp [processList, hpe, diagsOf]

/-! ### Claim C4 -/

/-- Claim C4: a fatal decode (or encode) failure aborts the run at that entry
— the outcome is `fatalStop`, it does not depend on the entries after the
failing one, and no output is produced; conversely a page is produced only
when every entry decodes, normalizes and encodes successfully (or is
skipped by classification). -/
theorem c4_fatal_aborts (c : Codec) (st : ProgramSettings) (mode : SourceMode) :
    (∀ (l₁ : List Entry) (e : Entry), (∀ x ∈ l₁, stepIsOk c st mode x = true) →
      processEntry c st mode e = .fatal →
      ∀ l₂ l₂' : List Entry,
        runEntries c st mode (l₁ ++ e :: l₂) = .fatalStop (skipDiags c st mode l₁) ∧
        runEntries c st mode (l₁ ++ e :: l₂) = runEntries c st mode (l₁ ++ e :: l₂') ∧
        pageOf (runEntries c st mode (l₁ ++ e :: l₂)) = none) ∧
    (∀ (l : List Entry) (d : List String) (h : String),
      runEntries c st mode l = .page d h → ∀ x ∈ l, stepIsOk c st mode x = true) := by
  constructor
  · intro l₁ e hok hf l₂ l₂'
    have h1 : runEntries c st mode (l₁ ++ e :: l₂) = .fatalStop (skipDiags c st mode l₁) := by
      unfold runEntries
      rw [processList_append_ok c st mode l₁ hok]
      simp [processList, hf]
    have h1' : runEntries c st mode (l₁ ++ e :: l₂') = .fatalStop (skipDiags c st mode l₁) := by
      unfold runEntries
      rw [processList_append_ok c st mode l₁ hok]
      simp [processList, hf]
    exact ⟨h1, h1.trans h1'.symm, by rw [h1]; rfl⟩
  · intro l d h hrun
    exact processList_page_all_ok c st mode l [] [] d h hrun

/-- An entry whose bytes every decoder of `failCodec` rejects. -/
def badEntry : Entry := { path := "wood/bad.png", bytes := [] }

theorem c4_fatal_aborts_witness :
    runEntries failCodec testSettings SourceMode.archive [badEntry, entryA] =
      RunOutcome.fatalStop [] ∧
    pageOf (runEntries failCodec testSettings SourceMode.archive [badEntry, entryA]) = none := by
  have h := (c4_fatal_aborts failCodec testSettings SourceMode.archive).1 [] badEntry
    (by simp) (by decide) [entryA] []
  exact ⟨by simpa using h.1, by simpa using h.2.2⟩

/-! ### Claim C3 -/

/-- Claim C3, counterexample: the claim as stated is false at a top-level
archive member named `full.pcx` — its lower-cased filename is exactly the
reserved name, so the claim requires a `skipping` diagnostic and a continued
run, but `src/crf2html.go` reaches `parts[len(parts)-2]` first and panics:
no diagnostic, no continuation. -/
theorem c3_counterexample :
    processEntry idCodec testSettings SourceMode.archive { path := "full.pcx", bytes := [] } ≠
      StepOutcome.skipped "skipping full.pcx" ∧
    processEntry idCodec testSettings SourceMode.archive { path := "full.pcx", bytes := [] } =
      StepOutcome.crash ∧
    runEntries idCodec testSettings SourceMode.archive [{ path := "full.pcx", bytes := [] }] =
      RunOutcome.crashed [] := by
  exact ⟨by decide, by decide, by decide⟩

/-- Claim C3 (amended): for every enumerated entry whose path has at least
two components — the single-component case panics instead, see the
counterexample and C6 — an unsupported (lower-cased) extension, or a
lower-cased filename exactly `full.pcx`, is skipped with a `skipping`
diagnostic, contributes no texture to the page, and processing continues;
the guarded `src/main.go` variant behaves the same there. -/
theorem c3_classifier_skips (c : Codec) (st : ProgramSettings) (mode : SourceMode) (e : Entry)
    (hlen : 2 ≤ (pathParts e).length)
    (hbad : allowedExtension (fileExt (entryFilename e)) = false ∨
      entryFilename e = "full.pcx") :
    processEntry c st mode e = .skipped ("skipping " ++ e.path) ∧
    processEntryGuarded c st mode e = .skipped ("skipping " ++ e.path) ∧
    ∀ l₁ l₂ : List Entry, (∀ x ∈ l₁, stepIsOk c st mode x = true) →
      pageOf (runEntries c st mode (l₁ ++ e :: l₂)) =
        pageOf (runEntries c st mode (l₁ ++ l₂)) ∧
      ("skipping " ++ e.path) ∈ diagsOf (runEntries c st mode (l₁ ++ e :: l₂)) := by
  have hcond : (!(allowedExtension (fileExt (entryFilename e))) ||
      entryFilename e == "full.pcx") = true := by
    rcases hbad with h | h
    · simp [h]
    · simp [h]
  have hskip : classifyAndBuild c st mode e = .skipped ("skipping " ++ e.path) := by
    unfold classifyAndBuild
    rw [if_pos hcond]
  have hpe : processEntry c st mode e = .skipped ("skipping " ++ e.path) := by
    unfold processEntry
    rw [if_neg (by omega), hskip]
  have hpg : processEntryGuarded c st mode e = .skipped ("skipping " ++ e.path) := by
    unfold processEntryGuarded
    rw [if_neg (by omega), hskip]
  refine ⟨hpe, hpg, ?_⟩
  intro l₁ l₂ hok
  constructor
  · unfold runEntries
    rw [processList_append_ok c st mode l₁ hok, processList_append_ok c st mode l₁ hok]
    simp only [processList, hpe]
    exact pageOf_processList_diags c st mode l₂ _ _ _
  · unfold runEntries
    rw [processList_append_ok c st mode l₁ hok]
    simp only [processList, hpe]
    rw [diagsOf_processList]
    simp

/-- An entry with an unsupported extension. -/
def txtEntry : Entry := { path := "wood/readme.txt", bytes := [] }

theorem c3_classifier_skips_witness :
    processEntry idCodec testSettings SourceMode.archive txtEntry =
      .skipped "skipping wood/readme.txt" ∧
    processEntryGuarded idCodec testSettings SourceMode.archive txtEntry =
      .skipped "skipping wood/readme.txt" ∧
    pageOf (runEntries idCodec testSettings SourceMode.archive [txtEntry, entryA]) =
      pageOf (runEntries idCodec testSettings SourceMode.archive [entryA]) ∧
    "skipping wood/readme.txt" ∈
      diagsOf (runEntries idCodec testSettings SourceMode.archive [txtEntry, entryA]) := by
  have h := c3_classifier_skips idCodec testSettings SourceMode.archive txtEntry
    (by decide) (by decide)
  have h2 := h.2.2 [] [entryA] (by simp)
  exact ⟨h.1, h.2.1, by simpa using h2.1, by simpa using h2.2⟩

/-! ### Claim C5 -/

theorem strLt_of_strLe_ne {a b : String} (hle : strLe a b) (hne : a ≠ b) : strLt a b := by
  unfold strLe at hle
  unfold strLt
  by_contra h
  have h' : lexLt a.data b.data = false := by simpa using h
  have hd : a.data = b.data := lexLt_eq_of_not _ _ h' hle
  apply hne
  cases a
  cases b
  exact congrArg String.mk hd

theorem sorted_lt_of_le_nodup :
    ∀ {l : List String}, l.Sorted strLe → l.Nodup → l.Sorted strLt := by
  intro l
  induction l with
  | nil => intro _ _; exact List.Pairwise.nil
  | cons a t ih =>
    intro hs hn
    rw [List.sorted_cons] at hs ⊢
    rw [List.nodup_cons] at hn
    refine ⟨fun b hb => strLt_of_strLe_ne (hs.1 b hb) ?_, ih hs.2 hn.2⟩
    intro he
    exact hn.1 (by rw [he]; exact hb)

/-- Claim C5: in the rendered page the family sections appear in strictly
increasing lexicographic order of the (lower-cased) family keys, and inside
each section the textures appear in lexicographic caption order; the page
body is exactly these sections concatenated in that order. -/
theorem c5_sorted_rendering (acc : List (String × Texture)) :
    List.Sorted strLt (familyKeys acc) ∧
    (∀ f ∈ familyKeys acc,
      List.Sorted captionLe (sortTextures (texturesOf acc f))) ∧
    renderSections acc = String.join ((familyKeys acc).map (sectionFor acc)) := by
  refine ⟨?_, fun f _ => List.sorted_insertionSort captionLe _, rfl⟩
  have hle : List.Sorted strLe (familyKeys acc) := List.sorted_insertionSort strLe _
  have hnd : (familyKeys acc).Nodup :=
    ((List.perm_insertionSort strLe ((acc.map Prod.fst).dedup)).symm).nodup
      (List.nodup_dedup _)
  exact sorted_lt_of_le_nodup hle hnd

/-! ### Claim C6 -/

/-- A flat archive member: supported extension, single path component. -/
def flatEntry : Entry := { path := "texture.png", bytes := [0] }

/-- Claim C6 (the crash at the failing input): in `src/crf2html.go` a path
with fewer than two components is not rejected with a diagnostic — the index
expression `parts[len(parts)-2]` panics and the run dies; the guarded
`src/main.go` variant skips it exactly as the claim describes.  For an
accepted entry the family key is the second-to-last component of the
lower-cased path (shown at a concrete mixed-case input). -/
theorem c6_short_path_crash :
    processEntry idCodec testSettings SourceMode.archive flatEntry = StepOutcome.crash ∧
    runEntries idCodec testSettings SourceMode.archive [flatEntry] = RunOutcome.crashed [] ∧
    processEntryGuarded idCodec testSettings SourceMode.archive flatEntry =
      StepOutcome.skipped "skipping texture.png" ∧
    (∃ t, processEntry idCodec testSettings SourceMode.archive
      { path := "FAM/Wood/Oak.PNG", bytes := [0] } = StepOutcome.made "wood" t) := by
  exact ⟨by decide, by decide, by decide, ⟨_, rfl⟩⟩

/-! ### Claim C8 -/

theorem parseSizeLoop_error (args : List String) :
    ∀ (k i : Nat) (x : Int), args.getD (i + 2 * k) "" = "-size" →
      i + 2 * k + 1 < args.length →
      atoi (args.getD (i + 2 * k + 1) "") = none →
      ∃ msg, parseSizeLoop args i x = .error msg := by
  intro k
  induction k with
  | zero =>
    intro i x hflag hlt hbad
    simp only [Nat.mul_zero, Nat.add_zero] at hflag hlt hbad
    rw [parseSizeLoop, dif_pos (show i < args.length by omega)]
    rw [if_pos ⟨by omega, hflag⟩, hbad]
    exact ⟨_, rfl⟩
  | succ k ih =>
    intro i x hflag hlt hbad
    have heq : i + 2 + 2 * k = i + 2 * (k + 1) := by ring
    rw [parseSizeLoop, dif_pos (show i < args.length by omega)]
    by_cases hc : i + 1 < args.length ∧ args.getD i "" = "-size"
    · rw [if_pos hc]
      cases hv : atoi (args.getD (i + 1) "") with
      | none => exact ⟨_, rfl⟩
      | some v =>
        exact ih (i + 2) v (by rw [heq]; exact hflag) (by omega)
          (by rw [show i + 2 + 2 * k + 1 = i + 2 * (k + 1) + 1 by ring]; exact hbad)
    · rw [if_neg hc]
      exact ih (i + 2) x (by rw [heq]; exact hflag) (by omega)
        (by rw [show i + 2 + 2 * k + 1 = i + 2 * (k + 1) + 1 by ring]; exact hbad)

/-- Claim C8: when a `-size` flag at a position the parser examines carries a
value `Atoi` rejects, the run ends as the invalid-size error — the outcome is
the same whatever the source holds (no enumeration, no decoding) and no
output is produced. -/
theorem c8_invalid_size_fatal (c : Codec) (args : List String) (k : Nat)
    (hflag : args.getD (3 + 2 * k) "" = "-size")
    (hidx : 3 + 2 * k + 1 < args.length)
    (hbad : atoi (args.getD (3 + 2 * k + 1) "") = none) :
    (∃ msg, ∀ src : SourceDesc, mainRun c args src = .invalidSize msg) ∧
    (∀ src₁ src₂ : SourceDesc, mainRun c args src₁ = mainRun c args src₂) ∧
    (∀ src : SourceDesc, outputOf (mainRun c args src) = none) := by
  obtain ⟨msg, hmsg⟩ := parseSizeLoop_error args k 3 128 hflag hidx hbad
  have hmain : ∀ src, mainRun c args src = .invalidSize msg := by
    intro src
    simp only [mainRun, defaultSettings]
    rw [if_neg (show ¬ args.length < 3 by omega)]
    rw [hmsg]
  refine ⟨⟨msg, hmain⟩, fun s₁ s₂ => by rw [hmain s₁, hmain s₂], fun s => by rw [hmain s]; rfl⟩

theorem c8_invalid_size_fatal_witness :
    (∃ msg, ∀ src : SourceDesc,
      mainRun idCodec ["prog", "s", "o", "-size", "abc"] src = .invalidSize msg) ∧
    (∀ src₁ src₂ : SourceDesc,
      mainRun idCodec ["prog", "s", "o", "-size", "abc"] src₁ =
        mainRun idCodec ["prog", "s", "o", "-size", "abc"] src₂) ∧
    (∀ src : SourceDesc,
      outputOf (mainRun idCodec ["prog", "s", "o", "-size", "abc"] src) = none) :=
  c8_invalid_size_fatal idCodec ["prog", "s", "o", "-size", "abc"] 0
    (by decide) (by decide) (by decide)

/-! ### Claim C9 -/

theorem parseTitleLoop_base (args : List String) (t : String) (hlen : args.length ≤ 3) :
    parseTitleLoop args 3 t = t := by
  rw [parseTitleLoop, dif_neg (by omega)]

theorem parseSizeLoop_base (args : List String) (x : Int) (hlen : args.length ≤ 3) :
    parseSizeLoop args 3 x = .ok x := by
  rw [parseSizeLoop, dif_neg (by omega)]

/-- Claim C9: invoked with only the source and output paths, the run uses
page title `"Textures"`, thumbnail size 128 and opaque white background; the
rendered page carries the escape-invariant title `"Textures"` in both its
title and heading slots, and every thumbnail's longer side is exactly
128. -/
theorem c9_default_settings (c : Codec) (prog src out : String) (mode : SourceMode)
    (entries : List Entry) (acc : List (String × Texture)) (w h : Nat)
    (hw : 0 < w) (hh : 0 < h) :
    mainRun c [prog, src, out] (.available mode entries) =
      .ran (runEntries c (defaultSettings src out) mode entries) ∧
    (defaultSettings src out).pageTitle = "Textures" ∧
    (defaultSettings src out).thumbnailSize = 128 ∧
    (defaultSettings src out).backgroundColor = { r := 255, g := 255, b := 255, a := 255 } ∧
    escapeHTML "Textures" = "Textures" ∧
    renderPage (defaultSettings src out) acc =
      pageP1 ++ "Textures" ++ pageP2 ++ "128" ++ pageP3 ++ "128" ++ pageP4 ++ "Textures" ++
        pageP5 ++ renderSections acc ++ pageP6 ∧
    max (newDimensions 128 w h).1 (newDimensions 128 w h).2 = 128 := by
  refine ⟨?_, rfl, rfl, rfl, by decide, ?_, (newDimensions_bounds 128 w h hw hh).2.2⟩
  · simp only [mainRun, defaultSettings]
    rw [if_neg (by simp)]
    rw [parseTitleLoop_base _ _ (by simp), parseSizeLoop_base _ _ (by simp)]
    rfl
  · simp only [renderPage, defaultSettings]
    rfl

theorem c9_default_settings_witness :
    mainRun idCodec ["prog", "s", "o"] (.available SourceMode.archive []) =
      .ran (runEntries idCodec (defaultSettings "s" "o") SourceMode.archive []) ∧
    (defaultSettings "s" "o").pageTitle = "Textures" ∧
    (defaultSettings "s" "o").thumbnailSize = 128 ∧
    (defaultSettings "s" "o").backgroundColor = { r := 255, g := 255, b := 255, a := 255 } ∧
    escapeHTML "Textures" = "Textures" ∧
    renderPage (defaultSettings "s" "o") [] =
      pageP1 ++ "Textures" ++ pageP2 ++ "128" ++ pageP3 ++ "128" ++ pageP4 ++ "Textures" ++
        pageP5 ++ renderSections [] ++ pageP6 ∧
    max (newDimensions 128 2 1).1 (newDimensions 128 2 1).2 = 128 :=
  c9_default_settings idCodec "prog" "s" "o" SourceMode.archive [] [] 2 1
    (by decide) (by decide)

/-! ### Claims C10 and C7: what a produced texture contains -/

/-- Inversion of a successful loop iteration: a produced texture comes from
a decoded image, normalized, JPEG-encoded at quality 100, and packaged by
`mkTexture`, keyed by the entry's family. -/
theorem processEntry_made_spec (c : Codec) (st : ProgramSettings) (mode : SourceMode)
    (e : Entry) (f : String) (t : Texture)
    (hmade : processEntry c st mode e = .made f t) :
    ∃ src jb, decodeEntry c mode (fileExt (entryFilename e)) e.bytes = some src ∧
      c.encodeJpeg 100 (normalizeImage c st src) = some jb ∧
      f = entryFamily e ∧
      t = mkTexture e.path (normalizeImage c st src) jb := by
  unfold processEntry classifyAndBuild at hmade
  split at hmade
  · exact absurd hmade (by simp)
  · split at hmade
    · exact absurd hmade (by simp)
    · split at hmade
      · exact absurd hmade (by simp)
      · next img hdec =>
        split at hmade
        · exact absurd hmade (by simp)
        · next jb henc =>
          injection hmade with h1 h2
          exact ⟨img, jb, hdec, henc, h1.symm, h2.symm⟩

/-- Claim C10: every produced texture's HTML embeds exactly one data URI,
whose media type is the constant `image/jpg` and whose payload is the base64
encoding of the JPEG stream (quality 100) of the normalized image — no other
media type or encoder feeds the output, whatever the source extension. -/
theorem c10_jpeg_only (c : Codec) (st : ProgramSettings) (mode : SourceMode)
    (e : Entry) (f : String) (t : Texture)
    (hmade : processEntry c st mode e = .made f t) :
    ∃ src jb,
      decodeEntry c mode (fileExt (entryFilename e)) e.bytes = some src ∧
      c.encodeJpeg 100 (normalizeImage c st src) = some jb ∧
      dataUri jb = "data:image/jpg;base64," ++ String.mk (b64Encode jb) ∧
      t.html =
        "<div class='texture'><div class='image'><img src='" ++ dataUri jb ++
          "'></div><div class='caption'>" ++ captionOf e.path (normalizeImage c st src) ++
          "</div></div>" := by
  obtain ⟨src, jb, hdec, henc, hf, ht⟩ := processEntry_made_spec c st mode e f t hmade
  refine ⟨src, jb, hdec, henc, rfl, ?_⟩
  rw [ht]
  rfl

/-- Claim C7: for every produced texture, dropping the 22-character
`data:image/jpg;base64,` prefix of its data URI and base64-decoding the
remainder yields exactly the encoder's byte stream; and — under the codec
interface contract that the standard decoder for the embedded type recovers
an encoded image's bounds — that stream decodes to an image whose width and
height are the dimensions recorded in the texture's caption. -/
theorem c7_data_uri_roundtrip (c : Codec) (st : ProgramSettings) (mode : SourceMode)
    (e : Entry) (f : String) (t : Texture)
    (hmade : processEntry c st mode e = .made f t)
    (hbytes : ∀ q img jb, c.encodeJpeg q img = some jb → ∀ b ∈ jb, b < 256)
    (hdims : ∀ img jb, c.encodeJpeg 100 img = some jb →
      ∃ di, c.decodeJpeg jb = some di ∧ di.width = img.width ∧ di.height = img.height) :
    ∃ img jb,
      c.encodeJpeg 100 img = some jb ∧
      t = mkTexture e.path img jb ∧
      t.caption = captionOf e.path img ∧
      (dataUri jb).data.drop 22 = b64Encode jb ∧
      b64Decode (b64Encode jb) = some jb ∧
      ∃ di, c.decodeJpeg jb = some di ∧ di.width = img.width ∧ di.height = img.height := by
  obtain ⟨src, jb, hdec, henc, hf, ht⟩ := processEntry_made_spec c st mode e f t hmade
  refine ⟨normalizeImage c st src, jb, henc, ht, by rw [ht]; rfl, ?_, ?_, hdims _ _ henc⟩
  · have hdata : (dataUri jb).data = "data:image/jpg;base64,".data ++ b64Encode jb := rfl
    rw [hdata]
    exact List.drop_left "data:image/jpg;base64,".data (b64Encode jb)
  · exact b64Decode_b64Encode jb (hbytes 100 _ _ henc)

/-- A codec satisfying the interface contracts of C7 concretely: the encoder
emits `Nat.pair width height` zero bytes and the decoder reads the bounds
back off the stream length. -/
def wCodec : Codec :=
  { decodePcx := fun bs => some { width := 1, height := 1, pixels := bs, alphaModel := false },
    decodeTga := fun bs => some { width := 1, height := 1, pixels := bs, alphaModel := false },
    decodeImage := fun bs => some { width := 1, height := 1, pixels := bs, alphaModel := false },
    resizePixels := fun _ _ img => img.pixels,
    compositePixels := fun _ img => img.pixels,
    encodeJpeg := fun _ img => some (List.replicate (Nat.pair img.width img.height) 0),
    decodeJpeg := fun bs =>
      some { width := (Nat.unpair bs.length).1, height := (Nat.unpair bs.length).2,
             pixels := bs, alphaModel := false } }

def wSettings : ProgramSettings :=
  { testSettings with thumbnailSize := 1 }

def wEntry : Entry := { path := "wood/oak.png", bytes := [7] }

def wTexture : Texture :=
  match processEntry wCodec wSettings SourceMode.archive wEntry with
  | .made _ t => t
  | _ => { caption := "", html := "" }

theorem wCodec_bytes :
    ∀ q img jb, wCodec.encodeJpeg q img = some jb → ∀ b ∈ jb, b < 256 := by
  intro q img jb henc b hb
  simp only [wCodec, Option.some.injEq] at henc
  rw [← henc] at hb
  rw [List.eq_of_mem_replicate hb]
  omega

theorem wCodec_dims :
    ∀ img jb, wCodec.encodeJpeg 100 img = some jb →
      ∃ di, wCodec.decodeJpeg jb = some di ∧ di.width = img.width ∧
        di.height = img.height := by
  intro img jb henc
  simp only [wCodec, Option.some.injEq] at henc
  refine ⟨_, rfl, ?_, ?_⟩ <;>
    simp [← henc, List.length_replicate, Nat.unpair_pair]

theorem c7_data_uri_roundtrip_witness :
    ∃ img jb,
      wCodec.encodeJpeg 100 img = some jb ∧
      wTexture = mkTexture wEntry.path img jb ∧
      wTexture.caption = captionOf wEntry.path img ∧
      (dataUri jb).data.drop 22 = b64Encode jb ∧
      b64Decode (b64Encode jb) = some jb ∧
      ∃ di, wCodec.decodeJpeg jb = some di ∧ di.width = img.width ∧
        di.height = img.height :=
  c7_data_uri_roundtrip wCodec wSettings SourceMode.archive wEntry "wood" wTexture
    (by decide) wCodec_bytes wCodec_dims

theorem c10_jpeg_only_witness :
    ∃ src jb,
      decodeEntry wCodec SourceMode.archive (fileExt (entryFilename wEntry)) wEntry.bytes =
        some src ∧
      wCodec.encodeJpeg 100 (normalizeImage wCodec wSettings src) = some jb ∧
      dataUri jb = "data:image/jpg;base64," ++ String.mk (b64Encode jb) ∧
      wTexture.html =
        "<div class='texture'><div class='image'><img src='" ++ dataUri jb ++
          "'></div><div class='caption'>" ++
          captionOf wEntry.path (normalizeImage wCodec wSettings src) ++ "</div></div>" :=
  c10_jpeg_only wCodec wSettings SourceMode.archive wEntry "wood" wTexture (by decide)

/-! ### Claim C2 -/

/-- Two sorted lists that are permutations of each other are equal, when the
order is antisymmetric on the members of the first. -/
theorem sorted_perm_eq_of_antisymm_mem {α : Type} {r : α → α → Prop} :
    ∀ (l₁ l₂ : List α), l₁.Perm l₂ → l₁.Sorted r → l₂.Sorted r →
      (∀ a ∈ l₁, ∀ b ∈ l₁, r a b → r b a → a = b) → l₁ = l₂ := by
  intro l₁
  induction l₁ with
  | nil =>
    intro l₂ hp _ _ _
    exact hp.nil_eq
  | cons a t₁ ih =>
    intro l₂ hp hs₁ hs₂ hanti
    cases l₂ with
    | nil => exact absurd hp.symm.nil_eq (by simp)
    | cons b t₂ =>
      have hab : a = b := by
        by_cases h : a = b
        · exact h
        · have hbmem : b ∈ a :: t₁ := hp.symm.subset (List.mem_cons_self b t₂)
          have hamem : a ∈ b :: t₂ := hp.subset (List.mem_cons_self a t₁)
          have hbt₁ : b ∈ t₁ := by
            rcases List.mem_cons.mp hbmem with h' | h'
            · exact absurd h'.symm h
            · exact h'
          have hat₂ : a ∈ t₂ := by
            rcases List.mem_cons.mp hamem with h' | h'
            · exact absurd h' h
            · exact h'
          have hrab : r a b := (List.sorted_cons.mp hs₁).1 b hbt₁
          have hrba : r b a := (List.sorted_cons.mp hs₂).1 a hat₂
          exact hanti a (List.mem_cons_self a t₁) b hbmem hrab hrba
      subst hab
      have hp' : t₁.Perm t₂ := hp.cons_inv
      have heq : t₁ = t₂ := ih t₂ hp' (List.sorted_cons.mp hs₁).2 (List.sorted_cons.mp hs₂).2
        (fun x hx y hy => hanti x (List.mem_cons_of_mem a hx) y (List.mem_cons_of_mem a hy))
      rw [heq]

/-- The rendered page only depends on the multiset of `(family, texture)`
pairs, provided captions identify textures within a family. -/
theorem renderPage_perm (st : ProgramSettings) (acc₁ acc₂ : List (String × Texture))
    (hp : acc₁.Perm acc₂)
    (hinj : ∀ p ∈ acc₁, ∀ q ∈ acc₁, p.1 = q.1 → p.2.caption = q.2.caption → p.2 = q.2) :
    renderPage st acc₁ = renderPage st acc₂ := by
  have hkeys : familyKeys acc₁ = familyKeys acc₂ := by
    apply List.eq_of_perm_of_sorted ?_ (List.sorted_insertionSort strLe _)
      (List.sorted_insertionSort strLe _)
    exact (List.perm_insertionSort strLe _).trans (((hp.map Prod.fst).dedup).trans
      (List.perm_insertionSort strLe _).symm)
  have hsect : ∀ f, sectionFor acc₁ f = sectionFor acc₂ f := by
    intro f
    have htex : (texturesOf acc₁ f).Perm (texturesOf acc₂ f) := by
      unfold texturesOf
      exact (hp.filter (fun p => p.1 == f)).map Prod.snd
    have hsorteq : sortTextures (texturesOf acc₁ f) = sortTextures (texturesOf acc₂ f) := by
      apply sorted_perm_eq_of_antisymm_mem _ _ ?_ (List.sorted_insertionSort captionLe _)
        (List.sorted_insertionSort captionLe _) ?_
      · exact (List.perm_insertionSort captionLe _).trans (htex.trans
          (List.perm_insertionSort captionLe _).symm)
      · intro x hx y hy hxy hyx
        have hx' : x ∈ texturesOf acc₁ f := (List.perm_insertionSort captionLe _).subset hx
        have hy' : y ∈ texturesOf acc₁ f := (List.perm_insertionSort captionLe _).subset hy
        obtain ⟨px, hpx, hpx2⟩ := List.mem_map.mp hx'
        obtain ⟨py, hpy, hpy2⟩ := List.mem_map.mp hy'
        obtain ⟨hpxm, hpxf⟩ := List.mem_filter.mp hpx
        obtain ⟨hpym, hpyf⟩ := List.mem_filter.mp hpy
        have hcap : x.caption = y.caption := antisymm (r := strLe) hxy hyx
        have hpq : px.2 = py.2 := by
          apply hinj px hpxm py hpym
          · have h1 : px.1 = f := by simpa using hpxf
            have h2 : py.1 = f := by simpa using hpyf
            rw [h1, h2]
          · rw [hpx2, hpy2]
            exact hcap
        rw [← hpx2, ← hpy2, hpq]
    simp only [sectionFor, hsorteq]
  have hsections : renderSections acc₁ = renderSections acc₂ := by
    unfold renderSections
    rw [hkeys]
    exact congrArg String.join (List.map_congr_left (fun f _ => hsect f))
  simp only [renderPage, hsections]

/-- Claim C2, counterexample: two same-family entries, `a/wood/oak.png` and
`b/wood/oak.png`, with identical captions but different pixel data; swapping
their enumeration order changes the page bytes, because the caption-only
tie-breaking of the in-family sort leaves their relative order to the
enumeration. -/
theorem c2_counterexample :
    [entryA, entryB].Perm [entryB, entryA] ∧
    pageOf (runEntries idCodec testSettings SourceMode.archive [entryA, entryB]) ≠
      pageOf (runEntries idCodec testSettings SourceMode.archive [entryB, entryA]) :=
  ⟨List.Perm.swap entryB entryA [], by decide⟩

/-- Claim C2 (amended): provided no two processed entries of the same family
carry the same caption with different texture contents, the produced page is
byte-identical across every permutation of the enumeration order. -/
theorem c2_perm_determinism (c : Codec) (st : ProgramSettings) (mode : SourceMode)
    (l₁ l₂ : List Entry) (hperm : l₁.Perm l₂)
    (hinj : ∀ p ∈ resultsOf c st mode l₁, ∀ q ∈ resultsOf c st mode l₁,
      p.1 = q.1 → p.2.caption = q.2.caption → p.2 = q.2)
    (d₁ : List String) (h₁ : String)
    (hrun : runEntries c st mode l₁ = .page d₁ h₁) :
    ∃ d₂, runEntries c st mode l₂ = .page d₂ h₁ := by
  have hall₁ : ∀ e ∈ l₁, stepIsOk c st mode e = true :=
    processList_page_all_ok c st mode l₁ [] [] d₁ h₁ hrun
  have hall₂ : ∀ e ∈ l₂, stepIsOk c st mode e = true := fun e he =>
    hall₁ e (hperm.symm.subset he)
  have hrun₁ : runEntries c st mode l₁ =
      .page (skipDiags c st mode l₁) (renderPage st (resultsOf c st mode l₁)) := by
    unfold runEntries
    rw [processList_ok c st mode l₁ [] [] hall₁]
    simp
  have hrun₂ : runEntries c st mode l₂ =
      .page (skipDiags c st mode l₂) (renderPage st (resultsOf c st mode l₂)) := by
    unfold runEntries
    rw [processList_ok c st mode l₂ [] [] hall₂]
    simp
  have hres : (resultsOf c st mode l₁).Perm (resultsOf c st mode l₂) := hperm.filterMap _
  have hpage : renderPage st (resultsOf c st mode l₁) =
      renderPage st (resultsOf c st mode l₂) := renderPage_perm st _ _ hres hinj
  rw [hrun] at hrun₁
  injection hrun₁ with hd hh
  exact ⟨skipDiags c st mode l₂, by rw [hrun₂, hh, hpage]⟩

theorem c2_perm_determinism_witness :
    ∃ d₂, runEntries idCodec testSettings SourceMode.archive [entryC, entryA] =
      RunOutcome.page d₂
        (renderPage testSettings
          (resultsOf idCodec testSettings SourceMode.archive [entryA, entryC])) :=
  c2_perm_determinism idCodec testSettings SourceMode.archive [entryA, entryC]
    [entryC, entryA] (List.Perm.swap entryC entryA []) (by decide)
    (skipDiags idCodec testSettings SourceMode.archive [entryA, entryC])
    (renderPage testSettings (resultsOf idCodec testSettings SourceMode.archive [entryA, entryC]))
    (by
      unfold runEntries
      rw [processList_ok idCodec testSettings SourceMode.archive [entryA, entryC] [] []
        (by decide)]
      simp)
